import Mathlib

/-!
Verification development for the ChessAI repository core
(`src/game.rs`, `src/mcts.rs`).

The external `chess` crate supplies the board representation and move
generator.  A position is modelled by the `Board` structure below, which
exposes exactly the facts the repository's code reads from the crate:
piece placement (`pieceOn`, squares indexed 0..63 with index
`rank * 8 + file`, a1 = 0, h8 = 63), side to move, the generated legal
move list (`MoveGen::new_legal`), the number of checking pieces
(`checkers().popcnt()`), and the 64-bit structural hash (modelled as a
natural number, only compared for equality).  `Board.status` is the
crate's derived `BoardStatus` computation.

Floating point values (`f32`/`f64`) are modelled as rationals; the
values actually produced by the translated code (`±1.0`, `0.0`,
`1/n`) are exactly representable, and the `as i64` cast is modelled as
truncation toward zero.
-/

/-- Piece kinds of the external `chess` crate (`chess::Piece`). -/
inductive Piece
| Pawn
| Knight
| Bishop
| Rook
| Queen
| King
deriving DecidableEq

/-- Side colours of the external `chess` crate (`chess::Color`). -/
inductive Color
| White
| Black
deriving DecidableEq

/-- Result of a finished game (`GameResult` in `src/game.rs`). -/
inductive GameResult
| WhiteWin
| BlackWin
| Draw
deriving DecidableEq

/-- Game status reported by the move generator (`chess::BoardStatus`). -/
inductive BoardStatus
| Ongoing
| Stalemate
| Checkmate
deriving DecidableEq

/-- A move of the external crate (`chess::ChessMove`): origin square,
destination square and optional promotion piece.  Squares are indices
0..63 with index `rank * 8 + file`. -/
structure ChessMove where
  fromSq : Nat
  toSq : Nat
  promotion : Option Piece
deriving DecidableEq

/-- The facts the repository reads from a `chess::Board`.
`legalMovesList` is the list produced by `MoveGen::new_legal`,
`checkers` the popcount of the checkers bitboard, `hash` the structural
hash (`Board::get_hash`). -/
structure Board where
  pieceOn : Nat → Option (Piece × Color)
  sideToMove : Color
  legalMovesList : List ChessMove
  checkers : Nat
  hash : Nat

/-- The crate's `Board::status`: `Ongoing` when legal moves exist, else
`Checkmate` when the side to move is in check and `Stalemate` otherwise. -/
def Board.status (b : Board) : BoardStatus :=
  if b.legalMovesList.length = 0 then
    (if b.checkers = 0 then BoardStatus.Stalemate else BoardStatus.Checkmate)
  else BoardStatus.Ongoing

/-- The crate's `Board::legal`: membership in the generated legal move set. -/
def Board.legalB (b : Board) (mv : ChessMove) : Bool :=
  b.legalMovesList.any (fun m => decide (m = mv))

/-- The `Game` struct of `src/game.rs`: a board plus the repetition
table (`HashMap<u64, u32>` from position hash to visit count), modelled
as an association list. -/
structure Game where
  board : Board
  positions : List (Nat × Nat)

/-- `Game::get_hash` (`src/game.rs`). -/
def Game.get_hash (g : Game) : Nat :=
  g.board.hash

/-- `Game::is_threefold_repetition` (`src/game.rs`): some count in the
repetition table is at least 3. -/
def Game.is_threefold_repetition (g : Game) : Bool :=
  g.positions.any (fun kv => decide (3 ≤ kv.2))

/-- The crate's `ALL_SQUARES` iteration order: square indices 0..63. -/
def boardAllSquares : List Nat :=
  List.range 64

/-- The pieces of one colour collected in square order, as the loop at
the top of `has_insufficient_material` (`src/game.rs`) builds
`white_pieces` / `black_pieces`. -/
def colorPieces (b : Board) (c : Color) : List Piece :=
  boardAllSquares.filterMap (fun sq =>
    match b.pieceOn sq with
    | some pc => if pc.2 = c then some pc.1 else none
    | none => none)

/-- Test from `has_insufficient_material`: the piece is a pawn, rook or
queen (always sufficient material). -/
def isMajorOrPawn (p : Piece) : Bool :=
  decide (p = Piece.Pawn) || decide (p = Piece.Rook) || decide (p = Piece.Queen)

/-- Squares holding a bishop of either colour, in `ALL_SQUARES` order
(the `bishop_squares` loop of `has_insufficient_material`). -/
def bishopSquares (b : Board) : List Nat :=
  boardAllSquares.filter (fun sq =>
    match b.pieceOn sq with
    | some pc => decide (pc.1 = Piece.Bishop)
    | none => false)

/-- Colour complex of each bishop square: `(file + rank) % 2 == 0`
(the source swaps the names `file`/`rank` but sums the same indices). -/
def bishopComplexes (b : Board) : List Bool :=
  (bishopSquares b).map (fun sq => decide ((sq / 8 + sq % 8) % 2 = 0))

/-- The source's `colors.iter().all(|&c| c == colors[0])` check. -/
def sameComplex (l : List Bool) : Bool :=
  match l with
  | [] => true
  | c :: cs => cs.all (fun x => x == c)

/-- `has_insufficient_material` (`src/game.rs` lines 245-325), translated
branch for branch: pawns/rooks/queens are always sufficient; otherwise
the early-return cascade over total piece counts. -/
def has_insufficient_material (b : Board) : Bool :=
  let white_pieces := colorPieces b Color.White
  let black_pieces := colorPieces b Color.Black
  let all_pieces := white_pieces ++ black_pieces
  if all_pieces.any isMajorOrPawn then false
  else
    let num_knights := (all_pieces.filter (fun p => decide (p = Piece.Knight))).length
    let num_bishops := (all_pieces.filter (fun p => decide (p = Piece.Bishop))).length
    if all_pieces.length = 2 then true
    else if num_knights = 1 ∧ num_bishops = 0 ∧ all_pieces.length = 3 then true
    else if num_knights = 2 ∧ num_bishops = 0 ∧ all_pieces.length = 4 then true
    else if num_bishops = 1 ∧ num_knights = 0 ∧ all_pieces.length = 3 then true
    else if num_bishops = 2 ∧ num_knights = 0 ∧ all_pieces.length = 4 then
      (if sameComplex (bishopComplexes b) then true else false)
    else false

/-- `Game::is_terminal` (`src/game.rs` lines 54-72). -/
def Game.is_terminal (g : Game) : Bool :=
  if g.is_threefold_repetition || has_insufficient_material g.board then true
  else if decide (g.board.status ≠ BoardStatus.Ongoing) then true
  else if g.board.legalMovesList.length = 0 then true
  else false

/-- Text of one square in the crate's move notation: file letter then
rank digit (`a1` = index 0). -/
def squareToChars (sq : Nat) : List Char :=
  [Char.ofNat (97 + sq % 8), Char.ofNat (49 + sq / 8)]

/-- Lower-case letter of a promotion piece in the crate's move text. -/
def pieceChar (p : Piece) : Char :=
  match p with
  | Piece.Pawn => 'p'
  | Piece.Knight => 'n'
  | Piece.Bishop => 'b'
  | Piece.Rook => 'r'
  | Piece.Queen => 'q'
  | Piece.King => 'k'

/-- The crate's `ChessMove` `Display`: origin, destination, optional
promotion letter (for example `e2e4`, `g7g8q`). -/
def moveToChars (m : ChessMove) : List Char :=
  squareToChars m.fromSq ++ squareToChars m.toSq ++
    (match m.promotion with
     | some p => [pieceChar p]
     | none => [])

/-- `Game::legal_moves` (`src/game.rs` lines 74-81): empty when the state
is terminal, else the generated moves rendered as text. -/
def Game.legal_moves (g : Game) : List (List Char) :=
  if g.is_terminal then []
  else g.board.legalMovesList.map moveToChars

/-- `Game::get_game_result` (`src/game.rs` lines 198-230). -/
def Game.get_game_result (g : Game) : Option GameResult :=
  if g.is_terminal = false then none
  else if g.is_threefold_repetition then some GameResult.Draw
  else if has_insufficient_material g.board then some GameResult.Draw
  else if g.board.legalMovesList.length = 0 then
    (if 0 < g.board.checkers then
      some (if g.board.sideToMove = Color.White then GameResult.BlackWin
            else GameResult.WhiteWin)
     else some GameResult.Draw)
  else some GameResult.Draw

/-- `Game::result_value` (`src/game.rs` lines 232-241). -/
def Game.result_value (g : Game) : ℚ :=
  match g.get_game_result with
  | some GameResult.WhiteWin => 1
  | some GameResult.BlackWin => -1
  | some GameResult.Draw => 0
  | none => 0

/-- `Game::current_player` (`src/game.rs` lines 118-124). -/
def Game.current_player (g : Game) : String :=
  if g.board.sideToMove = Color.White then "White" else "Black"

/-- `Game::encode_piece` (`src/game.rs` lines 164-196): six slots per
square in the kind order pawn, bishop, knight, rook, queen, king;
`+1` for White, `-1` for Black, zeros when empty. -/
def encode_piece (b : Board) (sq : Nat) : List ℚ :=
  match b.pieceOn sq with
  | some (p, c) =>
    match p with
    | Piece.Pawn =>
      if c = Color.White then [1, 0, 0, 0, 0, 0] else [-1, 0, 0, 0, 0, 0]
    | Piece.Bishop =>
      if c = Color.White then [0, 1, 0, 0, 0, 0] else [0, -1, 0, 0, 0, 0]
    | Piece.Knight =>
      if c = Color.White then [0, 0, 1, 0, 0, 0] else [0, 0, -1, 0, 0, 0]
    | Piece.Rook =>
      if c = Color.White then [0, 0, 0, 1, 0, 0] else [0, 0, 0, -1, 0, 0]
    | Piece.Queen =>
      if c = Color.White then [0, 0, 0, 0, 1, 0] else [0, 0, 0, 0, -1, 0]
    | Piece.King =>
      if c = Color.White then [0, 0, 0, 0, 0, 1] else [0, 0, 0, 0, 0, -1]
  | none => [0, 0, 0, 0, 0, 0]

/-- `Game::encode` (`src/game.rs` lines 145-162): rows 0..7 (rank 1
first), columns 0..7 (file a first), `make_square(rank, file)` giving
index `row * 8 + column`, six numbers appended per square. -/
def Game.encode (g : Game) : List ℚ :=
  ((List.range 8).map (fun row =>
    ((List.range 8).map (fun column =>
      encode_piece g.board (row * 8 + column))).flatten)).flatten

/-- The error strings produced by `Game::parse_move` / `Game::make_move`
(`src/game.rs`), one constructor per distinct message. -/
inductive MoveError
| TooShort
| InvalidFrom
| InvalidTo
| InvalidPromotion
| Illegal
deriving DecidableEq

/-- The crate's `Square::from_str` on a two-character slice: file letter
`a`..`h`, rank digit `1`..`8`, index `rank * 8 + file`; anything else
fails. -/
def squareFromChars (cf cr : Char) : Option Nat :=
  if 'a' ≤ cf ∧ cf ≤ 'h' ∧ '1' ≤ cr ∧ cr ≤ '8' then
    some ((cr.toNat - 49) * 8 + (cf.toNat - 97))
  else none

/-- Promotion letter table of `Game::parse_move`: `q`, `r`, `b`, `n`. -/
def promoPiece (c : Char) : Option Piece :=
  match c with
  | 'q' => some Piece.Queen
  | 'r' => some Piece.Rook
  | 'b' => some Piece.Bishop
  | 'n' => some Piece.Knight
  | _ => none

/-- `Game::parse_move` (`src/game.rs` lines 83-116).  Move text is
modelled as a list of characters.  The source rejects strings shorter
than four characters, parses characters 0-1 and 2-3 as squares, reads
character 4 as a promotion letter when the length exceeds four
(`move_str.len() > 4` holds exactly when `rest` is non-empty), ignores
any characters beyond the fifth, and finally checks `Board::legal`. -/
def Game.parse_move (g : Game) (cs : List Char) : Except MoveError ChessMove :=
  if cs.length < 4 then Except.error MoveError.TooShort
  else
    match cs with
    | c0 :: c1 :: c2 :: c3 :: rest =>
      (match squareFromChars c0 c1 with
       | none => Except.error MoveError.InvalidFrom
       | some f =>
         match squareFromChars c2 c3 with
         | none => Except.error MoveError.InvalidTo
         | some t =>
           match rest with
           | [] =>
             (if g.board.legalB (ChessMove.mk f t none) then
               Except.ok (ChessMove.mk f t none)
              else Except.error MoveError.Illegal)
           | p :: _ =>
             match promoPiece p with
             | none => Except.error MoveError.InvalidPromotion
             | some pp =>
               (if g.board.legalB (ChessMove.mk f t (some pp)) then
                 Except.ok (ChessMove.mk f t (some pp))
                else Except.error MoveError.Illegal))
    | _ => Except.error MoveError.TooShort

/-- `Game::increment_position_count` (`src/game.rs` lines 140-143):
`*self.positions.entry(key).or_insert(0) += 1` on the association-list
model — bump the entry when the key is present, else append it with
count 1. -/
def incrementPositions (ps : List (Nat × Nat)) (key : Nat) : List (Nat × Nat) :=
  if ps.any (fun kv => decide (kv.1 = key)) then
    ps.map (fun kv => if kv.1 = key then (kv.1, kv.2 + 1) else kv)
  else ps ++ [(key, 1)]

/-- Count stored in the repetition table for a key (0 when absent). -/
def positionCount (ps : List (Nat × Nat)) (key : Nat) : Nat :=
  match ps.find? (fun kv => decide (kv.1 = key)) with
  | some kv => kv.2
  | none => 0

/-- `Game::make_move` (`src/game.rs` lines 37-48).  `step` models the
external `Board::make_move_new`.  The Rust method takes `&mut self`:
the first component of the result is the receiver after the call (the
source assigns `self.board = new_board` and increments the repetition
table before returning a copy of itself), the second the returned
`Result`.  On a parse error the receiver is untouched. -/
def Game.make_move (step : Board → ChessMove → Board) (g : Game)
    (cs : List Char) : Game × Except MoveError Game :=
  match g.parse_move cs with
  | Except.error e => (g, Except.error e)
  | Except.ok mv =>
    let new_board := step g.board mv
    let g2 : Game :=
      { board := new_board,
        positions := incrementPositions g.positions new_board.hash }
    (g2, Except.ok g2)

/-- Is an `Except` result an error. -/
def isErr {ε α : Type} (e : Except ε α) : Bool :=
  match e with
  | Except.error _ => true
  | Except.ok _ => false

/-- `ChessMCTSState` (`src/mcts.rs`): a wrapper around `Game`. -/
structure ChessMCTSState where
  game : Game

/-- `ModelOutput` (`src/mcts.rs` lines 47-51): scalar evaluation and a
policy probability per legal move. -/
structure ModelOutput where
  value : ℚ
  policy : List ℚ
deriving DecidableEq

/-- The `ChessModel` trait object (`src/mcts.rs` line 44): an arbitrary
function from a game to a model output. -/
def ChessModel : Type :=
  Game → ModelOutput

/-- `ChessEvaluator` (`src/mcts.rs` lines 55-57): holds the model. -/
structure ChessEvaluator where
  model : ChessModel

/-- `ChessEvaluator::evaluate_state` (`src/mcts.rs` lines 60-72): the
terminal `result_value` when it is non-zero, else the placeholder 0. -/
def ChessEvaluator.evaluate_state (ev : ChessEvaluator)
    (state : ChessMCTSState) : ℚ :=
  let terminal_value := state.game.result_value
  if terminal_value ≠ 0 then terminal_value else 0

/-- `ChessEvaluator::evaluate_new_state` (`src/mcts.rs` lines 102-110):
unconditionally evaluates the model on the state's game and pairs the
output with one unit of move data per supplied move. -/
def ChessEvaluator.evaluate_new_state (ev : ChessEvaluator)
    (state : ChessMCTSState) (moves : List (List Char)) :
    List Unit × ModelOutput :=
  let model_output := ev.model state.game
  (List.replicate moves.length (), model_output)

/-- Truncation toward zero of a rational, modelling Rust's `as i64`
cast of an in-range `f64`. -/
def ratTruncToInt (q : ℚ) : Int :=
  if q < 0 then -(Int.floor (-q)) else Int.floor q

/-- `ChessEvaluator::interpret_evaluation_for_player` (`src/mcts.rs`
lines 122-129): negate the value for Black, scale by 10000 and cast. -/
def ChessEvaluator.interpret_evaluation_for_player (ev : ChessEvaluator)
    (modelEval : ModelOutput) (player : String) : Int :=
  let value := if player = "White" then modelEval.value else -modelEval.value
  ratTruncToInt (value * 10000)

/-- `RealChessModel::evaluate` (`src/mcts.rs` lines 149-157) with the
network call abstracted as `score`: the value is the network applied to
the encoding, the policy is uniform over the current legal moves
(`vec![1.0 / n as f64; n]`). -/
def RealChessModel.evaluate (score : List ℚ → ℚ) : ChessModel :=
  fun g =>
    { value := score g.encode,
      policy := List.replicate g.legal_moves.length
        (1 / (g.legal_moves.length : ℚ)) }

/-!  Specification-side definitions.  These follow the words of
`spec.md`, to be compared with the definitions translated from the
source. -/

/-- The winner when the given side has been checkmated ("win for the
side NOT to move"). -/
def winnerAgainst (c : Color) : GameResult :=
  if c = Color.White then GameResult.BlackWin else GameResult.WhiteWin

/-- Classification in the exact order prescribed by spec §4.1
`classify`: (1) threefold repetition, (2) insufficient material, (3) the
move generator's own non-ongoing status — checkmate a win for the side
not to move, anything else non-ongoing a draw —, (4) zero legal moves —
a win for the other side when in check, else stalemate —, (5) ongoing
(`none`). -/
def classify_spec (g : Game) : Option GameResult :=
  if g.is_threefold_repetition then some GameResult.Draw
  else if has_insufficient_material g.board then some GameResult.Draw
  else if g.board.status = BoardStatus.Checkmate then
    some (winnerAgainst g.board.sideToMove)
  else if decide (g.board.status ≠ BoardStatus.Ongoing) then
    some GameResult.Draw
  else if g.board.legalMovesList.length = 0 then
    (if 0 < g.board.checkers then some (winnerAgainst g.board.sideToMove)
     else some GameResult.Draw)
  else none

/-- Knights of one colour (for the per-side counts of the spec's
insufficient-material enumeration). -/
def knightCount (b : Board) (c : Color) : Nat :=
  ((colorPieces b c).filter (fun p => decide (p = Piece.Knight))).length

/-- Bishops of one colour. -/
def bishopCount (b : Board) (c : Color) : Nat :=
  ((colorPieces b c).filter (fun p => decide (p = Piece.Bishop))).length

/-- Kings of one colour. -/
def kingCount (b : Board) (c : Color) : Nat :=
  ((colorPieces b c).filter (fun p => decide (p = Piece.King))).length

/-- The insufficient-material rule exactly as spec §4.1 enumerates it:
any pawn, rook or queen is sufficient; otherwise insufficient exactly
for two bare kings, king + single knight vs bare king, king + knight vs
king + knight (one knight on each side), king + single bishop vs bare
king, and king + bishop vs king + bishop (one bishop each) on the same
colour complex; sufficient in every other combination. -/
def insufficientSpec (b : Board) : Bool :=
  let wn := knightCount b Color.White
  let bn := knightCount b Color.Black
  let wb := bishopCount b Color.White
  let bb := bishopCount b Color.Black
  if (colorPieces b Color.White ++ colorPieces b Color.Black).any isMajorOrPawn
  then false
  else
    decide (wn = 0 ∧ bn = 0 ∧ wb = 0 ∧ bb = 0) ||
    decide ((wn = 1 ∧ bn = 0 ∨ wn = 0 ∧ bn = 1) ∧ wb = 0 ∧ bb = 0) ||
    decide (wn = 1 ∧ bn = 1 ∧ wb = 0 ∧ bb = 0) ||
    decide ((wb = 1 ∧ bb = 0 ∨ wb = 0 ∧ bb = 1) ∧ wn = 0 ∧ bn = 0) ||
    (decide (wb = 1 ∧ bb = 1 ∧ wn = 0 ∧ bn = 0) &&
      sameComplex (bishopComplexes b))

/-- The insufficient-material rule as the code actually implements it,
stated with the spec's per-side vocabulary: the knight and bishop pair
cases hold for the given total counts regardless of which side holds
the pieces (this is the amendment forced by the counterexample). -/
def insufficientAmended (b : Board) : Bool :=
  let kn := knightCount b Color.White + knightCount b Color.Black
  let bi := bishopCount b Color.White + bishopCount b Color.Black
  if (colorPieces b Color.White ++ colorPieces b Color.Black).any isMajorOrPawn
  then false
  else
    decide (kn = 0 ∧ bi = 0) ||
    decide (kn = 1 ∧ bi = 0) ||
    decide (kn = 2 ∧ bi = 0) ||
    decide (bi = 1 ∧ kn = 0) ||
    (decide (bi = 2 ∧ kn = 0) && sameComplex (bishopComplexes b))

/-- Error condition of move parsing as amended for claim C5: fewer than
four characters, an unparsable origin or destination square, a fifth
character outside `q`, `r`, `b`, `n`, or a move that fails the move
generator's legality check; characters beyond the fifth are ignored. -/
def moveTextError (g : Game) (cs : List Char) : Bool :=
  match cs with
  | c0 :: c1 :: c2 :: c3 :: rest =>
    (match squareFromChars c0 c1, squareFromChars c2 c3 with
     | some f, some t =>
       (match rest with
        | [] => !(g.board.legalB (ChessMove.mk f t none))
        | p :: _ =>
          match promoPiece p with
          | some pp => !(g.board.legalB (ChessMove.mk f t (some pp)))
          | none => true)
     | _, _ => true)
  | _ => true

/-!  Concrete positions used as witnesses and counterexamples. -/

/-- A board transition that leaves the board unchanged (any `step`
works for the parse-level statements). -/
def stepConst : Board → ChessMove → Board :=
  fun b _ => b

/-- A minimal move `a1b1`. -/
def mv0 : ChessMove :=
  ChessMove.mk 0 1 none

/-- Piece placement with only the two kings (e1 and e8). -/
def kingsOnlyPieceOn (sq : Nat) : Option (Piece × Color) :=
  if sq = 4 then some (Piece.King, Color.White)
  else if sq = 60 then some (Piece.King, Color.Black)
  else none

/-- A bare-kings board: the move generator still reports legal king
moves and an ongoing status, but material is insufficient. -/
def kingsOnlyBoard : Board :=
  { pieceOn := kingsOnlyPieceOn,
    sideToMove := Color.White,
    legalMovesList := [ChessMove.mk 4 12 none],
    checkers := 0,
    hash := 7 }

/-- Game at the bare-kings position. -/
def kingsOnlyGame : Game :=
  { board := kingsOnlyBoard, positions := [(7, 1)] }

/-- Piece placement White king a1 + knights b1, c1 versus bare Black
king h8: both knights on one side. -/
def twoKnightsPieceOn (sq : Nat) : Option (Piece × Color) :=
  if sq = 0 then some (Piece.King, Color.White)
  else if sq = 1 then some (Piece.Knight, Color.White)
  else if sq = 2 then some (Piece.Knight, Color.White)
  else if sq = 63 then some (Piece.King, Color.Black)
  else none

/-- Board for the king + two knights versus bare king position. -/
def twoKnightsBoard : Board :=
  { pieceOn := twoKnightsPieceOn,
    sideToMove := Color.White,
    legalMovesList := [ChessMove.mk 1 18 none],
    checkers := 0,
    hash := 9 }

/-- A board whose legal move set contains the promotion `g7g8q`
(square 54 to square 62 promoting to a queen). -/
def promoBoard : Board :=
  { pieceOn := fun sq =>
      if sq = 54 then some (Piece.Pawn, Color.White)
      else if sq = 4 then some (Piece.King, Color.White)
      else if sq = 63 then some (Piece.King, Color.Black)
      else none,
    sideToMove := Color.White,
    legalMovesList := [ChessMove.mk 54 62 (some Piece.Queen)],
    checkers := 0,
    hash := 11 }

/-- Game at the promotion position. -/
def promoGame : Game :=
  { board := promoBoard, positions := [(11, 1)] }

/-- A six-character move text whose first five characters form the
legal promotion `g7g8q`. -/
def sixCharMove : List Char :=
  ['g', '7', 'g', '8', 'q', 'q']

/-- A simple pre-move board (hash 1) with the single legal move `a1b1`. -/
def b0 : Board :=
  { pieceOn := fun sq =>
      if sq = 0 then some (Piece.King, Color.White)
      else if sq = 27 then some (Piece.Queen, Color.White)
      else if sq = 63 then some (Piece.King, Color.Black)
      else none,
    sideToMove := Color.White,
    legalMovesList := [mv0],
    checkers := 0,
    hash := 1 }

/-- The post-move board (hash 2) reached from `b0` by `a1b1`. -/
def b1 : Board :=
  { pieceOn := fun sq =>
      if sq = 1 then some (Piece.King, Color.White)
      else if sq = 27 then some (Piece.Queen, Color.White)
      else if sq = 63 then some (Piece.King, Color.Black)
      else none,
    sideToMove := Color.Black,
    legalMovesList := [ChessMove.mk 63 62 none],
    checkers := 0,
    hash := 2 }

/-- Board transition taking any board to `b1` (models
`Board::make_move_new` at this position). -/
def step01 : Board → ChessMove → Board :=
  fun _ _ => b1

/-- Ongoing game at `b0`: a queen is on the board, no repetition, legal
moves exist. -/
def g0 : Game :=
  { board := b0, positions := [(1, 1)] }

/-- Move text `a1b1`. -/
def charsA1B1 : List Char :=
  ['a', '1', 'b', '1']

/-- Piece placement of the standard starting position. -/
def startPieceOn (sq : Nat) : Option (Piece × Color) :=
  if sq = 0 ∨ sq = 7 then some (Piece.Rook, Color.White)
  else if sq = 1 ∨ sq = 6 then some (Piece.Knight, Color.White)
  else if sq = 2 ∨ sq = 5 then some (Piece.Bishop, Color.White)
  else if sq = 3 then some (Piece.Queen, Color.White)
  else if sq = 4 then some (Piece.King, Color.White)
  else if 8 ≤ sq ∧ sq ≤ 15 then some (Piece.Pawn, Color.White)
  else if 48 ≤ sq ∧ sq ≤ 55 then some (Piece.Pawn, Color.Black)
  else if sq = 56 ∨ sq = 63 then some (Piece.Rook, Color.Black)
  else if sq = 57 ∨ sq = 62 then some (Piece.Knight, Color.Black)
  else if sq = 58 ∨ sq = 61 then some (Piece.Bishop, Color.Black)
  else if sq = 59 then some (Piece.Queen, Color.Black)
  else if sq = 60 then some (Piece.King, Color.Black)
  else none

/-- Board of the standard starting position.  Only the piece placement
matters for `encode`; the move list is left empty because claim C8
reads nothing else. -/
def startBoard : Board :=
  { pieceOn := startPieceOn,
    sideToMove := Color.White,
    legalMovesList := [],
    checkers := 0,
    hash := 3 }

/-- Game at the standard starting position. -/
def startGame : Game :=
  { board := startBoard, positions := [(3, 1)] }

/-- A model returning the constant value one half with an empty policy. -/
def constHalfModel : ChessModel :=
  fun _ => { value := 1 / 2, policy := [] }

/-- A model returning the constant value zero with an empty policy. -/
def constZeroModel : ChessModel :=
  fun _ => { value := 0, policy := [] }

/-!  Helper lemmas. -/

/-- The derived board status is `Ongoing` exactly when legal moves exist. -/
lemma board_status_ongoing_iff (b : Board) :
    b.status = BoardStatus.Ongoing ↔ ¬ b.legalMovesList.length = 0 := by
  unfold Board.status
  by_cases h : b.legalMovesList.length = 0
  · by_cases hc : b.checkers = 0 <;> simp [h, hc]
  · simp [h]

/-- A state is non-terminal exactly when there is no repetition, no
insufficient material, and the move generator produced moves. -/
lemma is_terminal_false_iff (g : Game) :
    g.is_terminal = false ↔
      g.is_threefold_repetition = false ∧
      has_insufficient_material g.board = false ∧
      ¬ g.board.legalMovesList.length = 0 := by
  unfold Game.is_terminal Board.status
  by_cases h1 : g.is_threefold_repetition <;>
  by_cases h2 : has_insufficient_material g.board <;>
  by_cases h3 : g.board.legalMovesList.length = 0 <;>
  by_cases hc : g.board.checkers = 0 <;>
    simp [h1, h2, h3, hc]

/-- `get_game_result` reports no result exactly on non-terminal states. -/
lemma get_game_result_none_iff (g : Game) :
    g.get_game_result = none ↔ g.is_terminal = false := by
  cases hT : g.is_terminal with
  | false => simp [Game.get_game_result, hT]
  | true =>
    have hne : g.get_game_result ≠ none := by
      unfold Game.get_game_result
      rw [hT]
      by_cases h1 : g.is_threefold_repetition <;>
      by_cases h2 : has_insufficient_material g.board <;>
      by_cases h3 : g.board.legalMovesList.length = 0 <;>
      by_cases hc : 0 < g.board.checkers <;>
        simp [h1, h2, h3, hc]
    simp [hne]

/-- A non-terminal state has a non-empty generated move list. -/
lemma legal_list_ne_nil_of_not_terminal (g : Game)
    (h : g.is_terminal = false) : g.board.legalMovesList ≠ [] := by
  have h3 := ((is_terminal_false_iff g).mp h).2.2
  intro hnil
  exact h3 (by rw [hnil]; rfl)

/-- C2.  `get_game_result` computes exactly the classification the spec
prescribes: threefold repetition first (a draw regardless of material
or mobility), then insufficient material, then the move generator's
non-ongoing status (checkmate a win for the side not to move, any other
non-ongoing status a draw), then the zero-legal-move case (a win for
the other side when in check, else stalemate), else ongoing; and the
state is terminal exactly when that classification is not ongoing. -/
theorem claim_C2_classification_order (g : Game) :
    g.get_game_result = classify_spec g ∧
    (g.is_terminal = true ↔ classify_spec g ≠ none) := by
  have hmain : g.get_game_result = classify_spec g := by
    unfold Game.get_game_result classify_spec Game.is_terminal Board.status
      winnerAgainst
    by_cases h1 : g.is_threefold_repetition <;>
    by_cases h2 : has_insufficient_material g.board <;>
    by_cases h3 : g.board.legalMovesList.length = 0 <;>
    by_cases hc : g.board.checkers = 0 <;>
      simp [h1, h2, h3, hc, Nat.pos_iff_ne_zero]
  refine ⟨hmain, ?_⟩
  rw [← hmain]
  constructor
  · intro hT hnone
    rw [(get_game_result_none_iff g).mp hnone] at hT
    cases hT
  · intro hne
    cases hT : g.is_terminal with
    | true => rfl
    | false => exact absurd ((get_game_result_none_iff g).mpr hT) hne

/-- C3.  `legal_moves` returns the empty list exactly on terminal
states: it is empty whenever `is_terminal` holds, and non-empty
whenever the classification is ongoing (`get_game_result` is `none`). -/
theorem claim_C3_legal_moves_empty_iff_terminal (g : Game) :
    (g.legal_moves = [] ↔ g.is_terminal = true) ∧
    (g.legal_moves = [] ↔ g.get_game_result ≠ none) := by
  have hmain : g.legal_moves = [] ↔ g.is_terminal = true := by
    cases hT : g.is_terminal with
    | true => simp [Game.legal_moves, hT]
    | false =>
      have hne := legal_list_ne_nil_of_not_terminal g hT
      simp [Game.legal_moves, hT, hne]
  refine ⟨hmain, hmain.trans ?_⟩
  rw [Ne, get_game_result_none_iff g]
  cases g.is_terminal <;> simp

/-- Truncation toward zero commutes with negation. -/
lemma ratTruncToInt_neg (q : ℚ) : ratTruncToInt (-q) = -ratTruncToInt q := by
  unfold ratTruncToInt
  rcases lt_trichotomy q 0 with h | h | h
  · rw [if_neg (by linarith), if_pos h, neg_neg]
  · rw [h]
    norm_num
  · rw [if_pos (by linarith), if_neg (by linarith), neg_neg]

/-- C7.  `interpret_evaluation_for_player` returns the value scaled by
10000 and truncated toward zero for White, the negation of that scaled
value for Black, and hence the White score is always the negation of
the Black score. -/
theorem claim_C7_score_perspective (ev : ChessEvaluator)
    (out : ModelOutput) :
    ev.interpret_evaluation_for_player out "White"
        = ratTruncToInt (out.value * 10000) ∧
    ev.interpret_evaluation_for_player out "Black"
        = -ratTruncToInt (out.value * 10000) ∧
    ev.interpret_evaluation_for_player out "White"
        = -ev.interpret_evaluation_for_player out "Black" := by
  have hw : ev.interpret_evaluation_for_player out "White"
      = ratTruncToInt (out.value * 10000) := by
    unfold ChessEvaluator.interpret_evaluation_for_player
    simp
  have hb : ev.interpret_evaluation_for_player out "Black"
      = -ratTruncToInt (out.value * 10000) := by
    unfold ChessEvaluator.interpret_evaluation_for_player
    rw [if_neg (by simp)]
    show ratTruncToInt (-out.value * 10000) = -ratTruncToInt (out.value * 10000)
    rw [neg_mul, ratTruncToInt_neg]
  exact ⟨hw, hb, by rw [hw, hb, neg_neg]⟩

/-- C10.  `get_game_result` is `none` exactly on non-terminal states,
`result_value` is 0 on every non-terminal state and on every drawn
terminal state, and so the scalar alone cannot separate the concrete
ongoing position `g0` from the drawn bare-kings position. -/
theorem claim_C10_result_value_ambiguous :
    (∀ g : Game, g.get_game_result = none ↔ g.is_terminal = false) ∧
    (∀ g : Game, g.is_terminal = false → g.result_value = 0) ∧
    (∀ g : Game, g.get_game_result = some GameResult.Draw →
      g.result_value = 0) ∧
    (g0.is_terminal = false ∧
      kingsOnlyGame.get_game_result = some GameResult.Draw ∧
      g0.result_value = kingsOnlyGame.result_value) := by
  refine ⟨fun g => get_game_result_none_iff g, ?_, ?_, ?_⟩
  · intro g hg
    unfold Game.result_value
    rw [(get_game_result_none_iff g).mpr hg]
  · intro g hg
    unfold Game.result_value
    rw [hg]
  · exact ⟨by decide, by decide, by decide⟩

/-- Witness for C10: the hypotheses hold and the conclusion evaluates at
the ongoing position `g0` and the drawn bare-kings position. -/
theorem claim_C10_result_value_ambiguous_witness :
    g0.result_value = 0 ∧ kingsOnlyGame.result_value = 0 :=
  ⟨claim_C10_result_value_ambiguous.2.1 g0 (by decide),
   claim_C10_result_value_ambiguous.2.2.1 kingsOnlyGame (by decide)⟩

/-- Every per-square block of the encoding has six entries. -/
lemma encode_piece_length (b : Board) (sq : Nat) :
    (encode_piece b sq).length = 6 := by
  unfold encode_piece
  cases h : b.pieceOn sq with
  | none => rfl
  | some pc =>
    rcases pc with ⟨p, c⟩
    cases p <;> cases c <;> simp

/-- The encoding always has 8 × 8 × 6 = 384 entries. -/
lemma encode_length (g : Game) : g.encode.length = 384 := by
  have h8 : List.range 8 = [0, 1, 2, 3, 4, 5, 6, 7] := by decide
  unfold Game.encode
  rw [h8]
  simp [encode_piece_length]

/-- C8.  `encode` always yields exactly 384 numbers, depends only on
the board (history-independent), and on the standard starting position
the blocks for a1, e1, a8 and e4 are the claimed slot vectors (rook
slot +1, king slot +1, rook slot -1, all zeros). -/
theorem claim_C8_encode_layout :
    (∀ g : Game, g.encode.length = 384) ∧
    (∀ g1 g2 : Game, g1.board = g2.board → g1.encode = g2.encode) ∧
    startGame.encode.take 6 = [0, 0, 0, 1, 0, 0] ∧
    (startGame.encode.drop 24).take 6 = [0, 0, 0, 0, 0, 1] ∧
    (startGame.encode.drop 336).take 6 = [0, 0, 0, -1, 0, 0] ∧
    (startGame.encode.drop 168).take 6 = [0, 0, 0, 0, 0, 0] := by
  refine ⟨encode_length, ?_, by decide, by decide, by decide, by decide⟩
  intro g1 g2 h
  unfold Game.encode
  rw [h]

/-- Witness for C8: the length and purity parts applied at the
standard starting position. -/
theorem claim_C8_encode_layout_witness :
    startGame.encode.length = 384 ∧ startGame.encode = startGame.encode :=
  ⟨claim_C8_encode_layout.1 startGame,
   claim_C8_encode_layout.2.1 startGame startGame rfl⟩

/-- C1 counterexample: at the drawn bare-kings position (classification
`Draw`, not ongoing), `evaluate_new_state` with a model returning the
constant one half yields value one half — not the terminal mapping 0 —
and swapping the model changes the output, so the scoring function is
invoked on a non-ongoing state. -/
theorem claim_C1_counterexample :
    kingsOnlyGame.get_game_result = some GameResult.Draw ∧
    ((ChessEvaluator.mk constHalfModel).evaluate_new_state
        (ChessMCTSState.mk kingsOnlyGame) []).2.value = 1 / 2 ∧
    ((ChessEvaluator.mk constHalfModel).evaluate_new_state
        (ChessMCTSState.mk kingsOnlyGame) []).2.value ≠ 0 ∧
    ((ChessEvaluator.mk constHalfModel).evaluate_new_state
        (ChessMCTSState.mk kingsOnlyGame) []).2
      ≠ ((ChessEvaluator.mk constZeroModel).evaluate_new_state
        (ChessMCTSState.mk kingsOnlyGame) []).2 := by
  refine ⟨by decide, rfl, ?_, ?_⟩
  · show (1 : ℚ) / 2 ≠ 0
    norm_num
  · intro hcontra
    have hv : (1 : ℚ) / 2 = 0 := congrArg ModelOutput.value hcontra
    norm_num at hv

/-- C1 amended: `evaluate_new_state` performs no terminal
short-circuit — it invokes the scoring model on every state, terminal
included, and returns that model output unchanged; with the real model
the policy is nevertheless empty on terminal states (because
`legal_moves` is empty there), but the value is the network's output
on the encoded position, not the ±1/0 terminal mapping. -/
theorem claim_C1_no_terminal_short_circuit (score : List ℚ → ℚ)
    (g : Game) (moves : List (List Char)) (h : g.is_terminal = true) :
    ((ChessEvaluator.mk (RealChessModel.evaluate score)).evaluate_new_state
        (ChessMCTSState.mk g) moves).2.value = score g.encode ∧
    ((ChessEvaluator.mk (RealChessModel.evaluate score)).evaluate_new_state
        (ChessMCTSState.mk g) moves).2.policy = [] ∧
    ((ChessEvaluator.mk (RealChessModel.evaluate score)).evaluate_new_state
        (ChessMCTSState.mk g) moves).1 = List.replicate moves.length () := by
  have hlm : g.legal_moves = [] := by simp [Game.legal_moves, h]
  refine ⟨rfl, ?_, rfl⟩
  show List.replicate g.legal_moves.length (1 / (g.legal_moves.length : ℚ)) = []
  rw [hlm]
  rfl

/-- Witness for C1 amended at the terminal bare-kings position with a
constant scoring function. -/
theorem claim_C1_no_terminal_short_circuit_witness :
    ((ChessEvaluator.mk
        (RealChessModel.evaluate (fun _ => 1 / 2))).evaluate_new_state
        (ChessMCTSState.mk kingsOnlyGame) []).2.policy = [] :=
  (claim_C1_no_terminal_short_circuit (fun _ => 1 / 2) kingsOnlyGame []
    (by decide)).2.1

/-- A piece list without pawns, rooks and queens consists of kings,
knights and bishops, so its length is the sum of those three counts. -/
lemma length_eq_counts (l : List Piece) (h : l.any isMajorOrPawn = false) :
    l.length =
      (l.filter (fun p => decide (p = Piece.King))).length +
      (l.filter (fun p => decide (p = Piece.Knight))).length +
      (l.filter (fun p => decide (p = Piece.Bishop))).length := by
  induction l with
  | nil => rfl
  | cons p l ih =>
    rw [List.any_cons] at h
    have hp : isMajorOrPawn p = false := by
      cases hh : isMajorOrPawn p
      · rfl
      · rw [hh] at h; simp at h
    have hl : l.any isMajorOrPawn = false := by
      cases hh : l.any isMajorOrPawn
      · rfl
      · rw [hh] at h; simp at h
    cases p with
    | Pawn => simp [isMajorOrPawn] at hp
    | Rook => simp [isMajorOrPawn] at hp
    | Queen => simp [isMajorOrPawn] at hp
    | King =>
      simp only [List.filter_cons, List.length_cons, ih hl]
      simp
      omega
    | Knight =>
      simp only [List.filter_cons, List.length_cons, ih hl]
      simp
      omega
    | Bishop =>
      simp only [List.filter_cons, List.length_cons, ih hl]
      simp
      omega

/-- Arithmetic core of claim C4: the source's cascade over total piece
counts, with the length expressed as kings + knights + bishops, equals
the amended total-count enumeration. -/
lemma insufficient_cases_eq (K B : Nat) (sc : Bool) :
    (if 2 + K + B = 2 then true
     else if K = 1 ∧ B = 0 ∧ 2 + K + B = 3 then true
     else if K = 2 ∧ B = 0 ∧ 2 + K + B = 4 then true
     else if B = 1 ∧ K = 0 ∧ 2 + K + B = 3 then true
     else if B = 2 ∧ K = 0 ∧ 2 + K + B = 4 then (if sc then true else false)
     else false) =
    (decide (K = 0 ∧ B = 0) || decide (K = 1 ∧ B = 0) ||
     decide (K = 2 ∧ B = 0) || decide (B = 1 ∧ K = 0) ||
     (decide (B = 2 ∧ K = 0) && sc)) := by
  have c1 : (2 + K + B = 2) ↔ (K = 0 ∧ B = 0) := by omega
  have c2 : (K = 1 ∧ B = 0 ∧ 2 + K + B = 3) ↔ (K = 1 ∧ B = 0) := by omega
  have c3 : (K = 2 ∧ B = 0 ∧ 2 + K + B = 4) ↔ (K = 2 ∧ B = 0) := by omega
  have c4 : (B = 1 ∧ K = 0 ∧ 2 + K + B = 3) ↔ (B = 1 ∧ K = 0) := by omega
  have c5 : (B = 2 ∧ K = 0 ∧ 2 + K + B = 4) ↔ (B = 2 ∧ K = 0) := by omega
  simp only [c1, c2, c3, c4, c5]
  by_cases p1 : K = 0 ∧ B = 0 <;>
  by_cases p2 : K = 1 ∧ B = 0 <;>
  by_cases p3 : K = 2 ∧ B = 0 <;>
  by_cases p4 : B = 1 ∧ K = 0 <;>
  by_cases p5 : B = 2 ∧ K = 0 <;>
    cases sc <;> simp [p1, p2, p3, p4, p5]

/-- C4 counterexample: on the board White king + two White knights
versus a bare Black king the code reports insufficient material, but
this position is in none of the spec's enumerated insufficient cases
(there is no knight on each side), where the spec requires
`sufficient`. -/
theorem claim_C4_counterexample :
    has_insufficient_material twoKnightsBoard = true ∧
    insufficientSpec twoKnightsBoard = false ∧
    knightCount twoKnightsBoard Color.White = 2 ∧
    knightCount twoKnightsBoard Color.Black = 0 := by
  decide

/-- C4 amended: on any board with exactly one king per side,
`has_insufficient_material` is false whenever a pawn, rook or queen
remains, and otherwise true exactly for: two bare kings; a single
knight in total; exactly two knights in total and no bishops,
regardless of which side holds them; a single bishop in total; exactly
two bishops in total and no knights, both on the same colour complex,
regardless of which side holds them. -/
theorem claim_C4_insufficient_material_amended (b : Board)
    (hw : kingCount b Color.White = 1) (hb : kingCount b Color.Black = 1) :
    has_insufficient_material b = insufficientAmended b := by
  by_cases hprq :
      (colorPieces b Color.White ++ colorPieces b Color.Black).any
        isMajorOrPawn = true
  · simp [has_insufficient_material, insufficientAmended, hprq]
  · have hall :
        (colorPieces b Color.White ++ colorPieces b Color.Black).any
          isMajorOrPawn = false := by
      cases hh :
          (colorPieces b Color.White ++ colorPieces b Color.Black).any
            isMajorOrPawn
      · rfl
      · exact absurd hh hprq
    have hkn :
        ((colorPieces b Color.White ++ colorPieces b Color.Black).filter
          (fun p => decide (p = Piece.Knight))).length =
          knightCount b Color.White + knightCount b Color.Black := by
      simp [knightCount, List.filter_append]
    have hbi :
        ((colorPieces b Color.White ++ colorPieces b Color.Black).filter
          (fun p => decide (p = Piece.Bishop))).length =
          bishopCount b Color.White + bishopCount b Color.Black := by
      simp [bishopCount, List.filter_append]
    have hki :
        ((colorPieces b Color.White ++ colorPieces b Color.Black).filter
          (fun p => decide (p = Piece.King))).length = 2 := by
      have hsplit :
          ((colorPieces b Color.White ++ colorPieces b Color.Black).filter
            (fun p => decide (p = Piece.King))).length =
            kingCount b Color.White + kingCount b Color.Black := by
        simp [kingCount, List.filter_append]
      rw [hsplit, hw, hb]
    have hlen :
        (colorPieces b Color.White ++ colorPieces b Color.Black).length =
          2 + (knightCount b Color.White + knightCount b Color.Black) +
            (bishopCount b Color.White + bishopCount b Color.Black) := by
      have h0 := length_eq_counts _ hall
      rw [hki, hkn, hbi] at h0
      omega
    simp only [has_insufficient_material, insufficientAmended, hall,
      Bool.false_eq_true, if_false, hkn, hbi, hlen]
    exact insufficient_cases_eq _ _ _

/-- Witness for C4 amended at the bare-kings board. -/
theorem claim_C4_insufficient_material_amended_witness :
    has_insufficient_material kingsOnlyBoard
      = insufficientAmended kingsOnlyBoard :=
  claim_C4_insufficient_material_amended kingsOnlyBoard (by decide) (by decide)

/-- The error status of `make_move` matches the amended error
condition `moveTextError`. -/
lemma make_move_isErr_eq (step : Board → ChessMove → Board) (g : Game)
    (cs : List Char) :
    isErr (Game.make_move step g cs).2 = moveTextError g cs := by
  rcases cs with _ | ⟨c0, _ | ⟨c1, _ | ⟨c2, _ | ⟨c3, rest⟩⟩⟩⟩
  · simp [Game.make_move, Game.parse_move, moveTextError, isErr]
  · simp [Game.make_move, Game.parse_move, moveTextError, isErr]
  · simp [Game.make_move, Game.parse_move, moveTextError, isErr]
  · simp [Game.make_move, Game.parse_move, moveTextError, isErr]
  · have h4 : ¬ ((c0 :: c1 :: c2 :: c3 :: rest).length < 4) := by
      simp
    simp only [Game.make_move, Game.parse_move, moveTextError, if_neg h4]
    cases hf : squareFromChars c0 c1 with
    | none => simp [isErr]
    | some f =>
      cases ht : squareFromChars c2 c3 with
      | none => simp [isErr]
      | some t =>
        cases rest with
        | nil =>
          cases hleg : g.board.legalB (ChessMove.mk f t none) <;>
            simp [isErr, hleg]
        | cons p rest2 =>
          cases hpp : promoPiece p with
          | none => simp [isErr, hpp]
          | some pp =>
            cases hleg : g.board.legalB (ChessMove.mk f t (some pp)) <;>
              simp [isErr, hpp, hleg]

/-- On a rejected move the receiver is untouched. -/
lemma make_move_err_frame (step : Board → ChessMove → Board) (g : Game)
    (cs : List Char) (h : isErr (Game.make_move step g cs).2 = true) :
    (Game.make_move step g cs).1 = g := by
  unfold Game.make_move at *
  cases hp : g.parse_move cs with
  | error e => rfl
  | ok mv => rw [hp] at h; simp [isErr] at h

/-- C5 counterexample: the six-character text `g7g8qq` is accepted by
`make_move` (characters beyond the fifth are ignored), although the
claim requires every text that is not exactly 4 or 5 characters long
to yield an error. -/
theorem claim_C5_counterexample :
    sixCharMove.length = 6 ∧
    isErr (Game.make_move stepConst promoGame sixCharMove).2 = false ∧
    (Game.make_move stepConst promoGame sixCharMove).2
      = Except.ok (Game.make_move stepConst promoGame sixCharMove).1 := by
  refine ⟨rfl, rfl, rfl⟩

/-- C5 amended: `make_move` errors exactly when the text has fewer than
four characters, an unparsable origin or destination square, a fifth
character outside `q`, `r`, `b`, `n`, or a parsed move failing the
move generator's legality check — characters beyond the fifth are
ignored, so longer well-formed texts are accepted — and on every error
the prior state is left completely unchanged. -/
theorem claim_C5_make_move_errors (step : Board → ChessMove → Board)
    (g : Game) (cs : List Char) :
    isErr (Game.make_move step g cs).2 = moveTextError g cs ∧
    (isErr (Game.make_move step g cs).2 = true →
      (Game.make_move step g cs).1 = g) :=
  ⟨make_move_isErr_eq step g cs, make_move_err_frame step g cs⟩

/-- Witness for C5 amended: a one-character text is rejected and leaves
the state unchanged. -/
theorem claim_C5_make_move_errors_witness :
    isErr (Game.make_move stepConst promoGame ['x']).2 = true ∧
    (Game.make_move stepConst promoGame ['x']).1 = promoGame :=
  ⟨by rw [(claim_C5_make_move_errors stepConst promoGame ['x']).1]; rfl,
   (claim_C5_make_move_errors stepConst promoGame ['x']).2 (by rfl)⟩

/-- Bumping the matching entries of an association list raises the
looked-up count of a present key by one. -/
lemma positionCount_bump_present (ps : List (Nat × Nat)) (key : Nat)
    (h : ps.any (fun kv => decide (kv.1 = key)) = true) :
    positionCount
        (ps.map (fun kv => if kv.1 = key then (kv.1, kv.2 + 1) else kv)) key
      = positionCount ps key + 1 := by
  induction ps with
  | nil => simp at h
  | cons a ps ih =>
    by_cases ha : a.1 = key
    · simp [positionCount, List.find?, ha]
    · have h' : ps.any (fun kv => decide (kv.1 = key)) = true := by
        rw [List.any_cons] at h
        cases hh : ps.any (fun kv => decide (kv.1 = key))
        · rw [hh] at h; simp [ha] at h
        · rfl
      have ih2 := ih h'
      simp only [List.map_cons, if_neg ha]
      simp [positionCount, List.find?, ha] at ih2 ⊢
      exact ih2

/-- Appending a fresh entry with count one raises the looked-up count
of an absent key from zero to one. -/
lemma positionCount_append_new (ps : List (Nat × Nat)) (key : Nat)
    (h : ps.any (fun kv => decide (kv.1 = key)) = false) :
    positionCount (ps ++ [(key, 1)]) key = positionCount ps key + 1 := by
  induction ps with
  | nil => simp [positionCount, List.find?]
  | cons a ps ih =>
    rw [List.any_cons] at h
    have ha : ¬ a.1 = key := by
      intro hh
      rw [hh] at h; simp at h
    have h' : ps.any (fun kv => decide (kv.1 = key)) = false := by
      cases hh : ps.any (fun kv => decide (kv.1 = key))
      · rfl
      · rw [hh] at h; simp at h
    have ih2 := ih h'
    simp [positionCount, List.find?, ha] at ih2 ⊢
    exact ih2

/-- `increment_position_count` raises the count of its key by one
(inserting the key with count 1 when it was absent). -/
lemma positionCount_increment_self (ps : List (Nat × Nat)) (key : Nat) :
    positionCount (incrementPositions ps key) key
      = positionCount ps key + 1 := by
  unfold incrementPositions
  by_cases hany : ps.any (fun kv => decide (kv.1 = key)) = true
  · rw [if_pos hany]
    exact positionCount_bump_present ps key hany
  · rw [if_neg hany]
    have hf : ps.any (fun kv => decide (kv.1 = key)) = false := by
      cases hh : ps.any (fun kv => decide (kv.1 = key))
      · rfl
      · exact absurd hh hany
    exact positionCount_append_new ps key hf

/-- Bumping the entries of one key leaves lookups of any other key
unchanged. -/
lemma find_bump_other (ps : List (Nat × Nat)) (key k : Nat) (hk : k ≠ key) :
    (ps.map (fun kv => if kv.1 = key then (kv.1, kv.2 + 1) else kv)).find?
        (fun kv => decide (kv.1 = k))
      = ps.find? (fun kv => decide (kv.1 = k)) := by
  induction ps with
  | nil => rfl
  | cons a ps ih =>
    rw [List.map_cons]
    by_cases hak : a.1 = k
    · have ha : ¬ a.1 = key := by rw [hak]; exact fun hh => hk hh
      rw [if_neg ha, List.find?_cons_of_pos _ (by simp [hak]),
        List.find?_cons_of_pos _ (by simp [hak])]
    · by_cases ha : a.1 = key
      · rw [if_pos ha, List.find?_cons_of_neg _ (by simp [hak]),
          List.find?_cons_of_neg _ (by simp [hak])]
        exact ih
      · rw [if_neg ha, List.find?_cons_of_neg _ (by simp [hak]),
          List.find?_cons_of_neg _ (by simp [hak])]
        exact ih

/-- Appending a fresh entry for one key leaves lookups of any other key
unchanged. -/
lemma find_append_other (ps : List (Nat × Nat)) (key k : Nat)
    (hk : k ≠ key) :
    (ps ++ [(key, 1)]).find? (fun kv => decide (kv.1 = k))
      = ps.find? (fun kv => decide (kv.1 = k)) := by
  induction ps with
  | nil =>
    have hne : ¬ key = k := fun hh => hk hh.symm
    show List.find? _ ((key, 1) :: []) = none
    rw [List.find?_cons_of_neg _ (by simp [hne])]
    rfl
  | cons a ps ih =>
    rw [List.cons_append]
    by_cases hak : a.1 = k
    · rw [List.find?_cons_of_pos _ (by simp [hak]),
        List.find?_cons_of_pos _ (by simp [hak])]
    · rw [List.find?_cons_of_neg _ (by simp [hak]),
        List.find?_cons_of_neg _ (by simp [hak])]
      exact ih

/-- `increment_position_count` leaves the count of every other key
unchanged. -/
lemma positionCount_increment_other (ps : List (Nat × Nat)) (key k : Nat)
    (hk : k ≠ key) :
    positionCount (incrementPositions ps key) k = positionCount ps k := by
  unfold incrementPositions
  by_cases hany : ps.any (fun kv => decide (kv.1 = key)) = true
  · rw [if_pos hany]
    unfold positionCount
    rw [find_bump_other ps key k hk]
  · rw [if_neg hany]
    unfold positionCount
    rw [find_append_other ps key k hk]

/-- C6 counterexample: after the accepted move `a1b1` from `g0` the
receiver holds the post-move board (hash 2) and the grown repetition
table — `make_move` mutates the state in place (the Rust method takes
`&mut self`, reassigns `self.board` and bumps the table before
returning a copy of itself), so the original no longer holds the
pre-move board or table. -/
theorem claim_C6_counterexample :
    (Game.make_move step01 g0 charsA1B1).1.board.hash = 2 ∧
    g0.board.hash = 1 ∧
    (Game.make_move step01 g0 charsA1B1).1.positions = [(1, 1), (2, 1)] ∧
    (Game.make_move step01 g0 charsA1B1).1.positions ≠ g0.positions := by
  refine ⟨rfl, rfl, rfl, by decide⟩

/-- C6 amended: an accepted move yields a state whose repetition table
is the previous table with the resulting position's hash incremented by
one (inserted with count 1 when absent) and all other counts unchanged;
but `make_move` mutates the receiver, which afterwards equals the
returned post-move state rather than keeping the pre-move board and
table. -/
theorem claim_C6_make_move_table_and_mutation
    (step : Board → ChessMove → Board) (g : Game) (cs : List Char)
    (mv : ChessMove) (hp : g.parse_move cs = Except.ok mv) :
    (Game.make_move step g cs).1
        = { board := step g.board mv,
            positions :=
              incrementPositions g.positions (step g.board mv).hash } ∧
    (Game.make_move step g cs).2
        = Except.ok (Game.make_move step g cs).1 ∧
    positionCount (Game.make_move step g cs).1.positions
        (step g.board mv).hash
      = positionCount g.positions (step g.board mv).hash + 1 ∧
    (∀ k, k ≠ (step g.board mv).hash →
      positionCount (Game.make_move step g cs).1.positions k
        = positionCount g.positions k) := by
  have hmm : Game.make_move step g cs
      = ({ board := step g.board mv,
           positions :=
             incrementPositions g.positions (step g.board mv).hash },
         Except.ok
           { board := step g.board mv,
             positions :=
               incrementPositions g.positions (step g.board mv).hash }) := by
    unfold Game.make_move
    rw [hp]
  rw [hmm]
  exact ⟨rfl, rfl, positionCount_increment_self _ _,
    fun k hk => positionCount_increment_other _ _ k hk⟩

/-- Witness for C6 amended: the accepted move `a1b1` from `g0` bumps
the count of the new hash 2 from zero to one. -/
theorem claim_C6_make_move_table_and_mutation_witness :
    positionCount (Game.make_move step01 g0 charsA1B1).1.positions 2
      = positionCount g0.positions 2 + 1 :=
  (claim_C6_make_move_table_and_mutation step01 g0 charsA1B1 mv0
    (by rfl)).2.2.1
